import Mathlib

/-! Verification development for the pocket-rag hybrid retrieval engine.
    The TypeScript sources are shallowly embedded: JavaScript strings are
    modelled as lists of characters (the inputs of the claims are Basic
    Latin, where UTF-16 code units coincide with characters), JavaScript
    numbers as exact fractions with a positive denominator (the claims
    under study depend only on ordering and on exact small-denominator
    arithmetic), fallible operations as Except values, and the potentially
    non-terminating source loops as fuelled iterations returning none when
    the fuel runs out. -/

namespace PocketRAG

/-! Part 1: JavaScript numbers.  A value is num/den with den positive;
    add, sub, mul and comparison are the exact rational operations.  The
    field structure of Mathlib rationals is avoided so that every
    comparison reduces inside the kernel. -/

structure JsNum where
  num : Int
  den : Int
  dpos : 0 < den

/-- Fraction n / d for a natural denominator; a zero denominator is sent
    to one so that the constructor is total (all call sites pass d > 0). -/
def jq (n : Int) (d : Nat) : JsNum :=
  ⟨n, max (d : Int) 1, lt_of_lt_of_le zero_lt_one (le_max_right _ _)⟩

def JsNum.ofInt (n : Int) : JsNum := ⟨n, 1, zero_lt_one⟩

def JsNum.add (a b : JsNum) : JsNum :=
  ⟨a.num * b.den + b.num * a.den, a.den * b.den, mul_pos a.dpos b.dpos⟩

def JsNum.sub (a b : JsNum) : JsNum :=
  ⟨a.num * b.den - b.num * a.den, a.den * b.den, mul_pos a.dpos b.dpos⟩

def JsNum.mul (a b : JsNum) : JsNum :=
  ⟨a.num * b.num, a.den * b.den, mul_pos a.dpos b.dpos⟩

instance : Add JsNum := ⟨JsNum.add⟩
instance : Sub JsNum := ⟨JsNum.sub⟩
instance : Mul JsNum := ⟨JsNum.mul⟩

/-- Boolean comparison a ≤ b, by cross multiplication (dens positive). -/
def JsNum.leb (a b : JsNum) : Bool := a.num * b.den ≤ b.num * a.den

/-- Math.abs. -/
def JsNum.absJ (a : JsNum) : JsNum := ⟨|a.num|, a.den, a.dpos⟩

/-- Math.min. -/
def JsNum.minJ (a b : JsNum) : JsNum := if a.leb b then a else b

instance : DecidableEq JsNum := fun a b =>
  decidable_of_iff (a.num = b.num ∧ a.den = b.den)
    (by cases a; cases b; simp)

theorem JsNum.leb_total (a b : JsNum) : a.leb b || b.leb a := by
  simp only [JsNum.leb, Bool.or_eq_true, decide_eq_true_eq]
  exact Int.le_total _ _

theorem JsNum.leb_trans {a b c : JsNum} (h1 : a.leb b) (h2 : b.leb c) :
    a.leb c := by
  simp only [JsNum.leb, decide_eq_true_eq] at h1 h2 ⊢
  have h3 := mul_le_mul_of_nonneg_right h1 c.dpos.le
  have h4 := mul_le_mul_of_nonneg_right h2 a.dpos.le
  have h5 : a.num * c.den * b.den ≤ c.num * a.den * b.den := by nlinarith
  exact le_of_mul_le_mul_right h5 b.dpos

/-! Part 2: character-level helpers for the JavaScript string operations
    used by the sources.  toLowerCase, trim and the \s, \w and \b regex
    classes are modelled exactly on the ASCII range, which covers every
    input appearing in the claims. -/

/-- Whitespace characters recognised by String.prototype.trim and \s
    (ASCII subset: space, \t, \n, \v, \f, \r). -/
def isJsWS (c : Char) : Bool :=
  c.toNat = 32 || c.toNat = 9 || c.toNat = 10 || c.toNat = 11 ||
  c.toNat = 12 || c.toNat = 13

/-- String.prototype.trim. -/
def trimL (l : List Char) : List Char :=
  ((l.dropWhile isJsWS).reverse.dropWhile isJsWS).reverse

/-- String.prototype.toLowerCase (exact on the ASCII range). -/
def toLowerL (l : List Char) : List Char := l.map Char.toLower

/-- Whether hay starts with needle. -/
def startsWithL : List Char → List Char → Bool
  | _, [] => true
  | [], _ :: _ => false
  | h :: hs, n :: ns => h == n && startsWithL hs ns

/-- String.prototype.includes: needle occurs contiguously in hay. -/
def containsSub (hay needle : List Char) : Bool :=
  startsWithL hay needle ||
    match hay with
    | [] => false
    | _ :: t => containsSub t needle

/-- One splitting step of String.prototype.split with a non-empty string
    separator: scan left to right, cutting at each separator occurrence.
    Each step consumes at least one character, so fuel equal to the length
    of the remainder is always sufficient; the fuel-exhausted branch is
    unreachable from jsSplitSep. -/
def splitSepGo (sep : List Char) : Nat → List Char → List Char → List (List Char)
  | 0, acc, rest => [acc ++ rest]
  | fuel + 1, acc, rest =>
    if startsWithL rest sep then
      acc :: splitSepGo sep fuel [] (rest.drop sep.length)
    else
      match rest with
      | [] => [acc]
      | c :: t => splitSepGo sep fuel (acc ++ [c]) t

/-- String.prototype.split(sep).  The empty separator is handled by the
    caller (the source splits into single characters in that case). -/
def jsSplitSep (sep l : List Char) : List (List Char) :=
  splitSepGo sep (l.length + 1) [] l

/-- Removal of the Unicode combining marks U+0300 to U+036F, as done by
    normalize("NFD") followed by the replace of the combining-mark range
    in the sources.  The NFD decomposition of precomposed letters is not
    modelled; on the Basic Latin inputs of the claims the two agree. -/
def stripDiacriticsL (l : List Char) : List Char :=
  l.filter (fun c => !(0x300 ≤ c.toNat && c.toNat ≤ 0x36F))

/-! Part 3: SemanticChunker (src/chunking/semantic-chunker.ts). -/

namespace SemanticChunker

/-- SEPARATORS from semantic-chunker.ts. -/
def SEPARATORS : List (List Char) :=
  [[Char.ofNat 10, Char.ofNat 10], [Char.ofNat 10], ['.', ' '], [' '], []]

/-- One iteration step of forceSplit: for (i = 0; i < len; i += step)
    push slice(i, i + chunkSize).  When the stride is zero the loop of
    the source never terminates, which the model signals by none. -/
def forceSplitIter (chunkSize step : Nat) (text : List Char) :
    Nat → Nat → Option (List (List Char))
  | 0, i => if i < text.length then none else some []
  | fuel + 1, i =>
    if i < text.length then
      match forceSplitIter chunkSize step text fuel (i + step) with
      | some rest => some ((text.drop i).take chunkSize :: rest)
      | none => none
    else some []

/-- forceSplit from semantic-chunker.ts, with step = chunkSize − overlap
    (natural subtraction; the source requires overlap < chunkSize for the
    loop to make progress).  Fuel text.length suffices whenever the step
    is positive. -/
def forceSplit (chunkSize overlap : Nat) (text : List Char) : List (List Char) :=
  (forceSplitIter chunkSize (chunkSize - overlap) text text.length 0).getD []

/-- The packing loop inside splitRecursive: greedily extend the current
    buffer with the next split (re-inserting the separator), flushing it
    when the candidate would exceed chunkSize; an oversized split is
    handed to the recursive splitter (the recur argument). -/
def packChunks (chunkSize : Nat) (recur : List Char → List (List Char))
    (sep : List Char) : List (List Char) → List Char → List (List Char)
  | [], current => if trimL current = [] then [] else [trimL current]
  | s :: ss, current =>
    let candidate := if current = [] then s else current ++ sep ++ s
    if candidate.length ≤ chunkSize then
      packChunks chunkSize recur sep ss candidate
    else
      (if current = [] then [] else [trimL current]) ++
      (if chunkSize < s.length then
        recur s ++ packChunks chunkSize recur sep ss []
      else
        packChunks chunkSize recur sep ss s)

/-- splitRecursive from semantic-chunker.ts. -/
def splitRecursive (chunkSize overlap : Nat) :
    List (List Char) → List Char → List (List Char)
  | [], text =>
    if text.length ≤ chunkSize then
      (if trimL text = [] then [] else [trimL text])
    else forceSplit chunkSize overlap text
  | sep :: restSeps, text =>
    if text.length ≤ chunkSize then
      (if trimL text = [] then [] else [trimL text])
    else
      packChunks chunkSize (splitRecursive chunkSize overlap restSeps) sep
        (if sep = [] then text.map (fun c => [c]) else jsSplitSep sep text) []

/-- addOverlap from semantic-chunker.ts: with at most one chunk the list
    is returned as is, otherwise empty chunks are filtered out. -/
def addOverlap (chunks : List (List Char)) : List (List Char) :=
  if chunks.length ≤ 1 then chunks else chunks.filter (fun c => 0 < c.length)

/-- SemanticChunker.chunk. -/
def chunkL (chunkSize overlap : Nat) (text : List Char) : List (List Char) :=
  addOverlap (splitRecursive chunkSize overlap SEPARATORS text)

/-- SemanticChunker.chunk on strings. -/
def chunk (chunkSize overlap : Nat) (text : String) : List String :=
  (chunkL chunkSize overlap text.data).map String.mk

end SemanticChunker

/-! chunkText from src/services/ingest.ts (the non-semantic chunker): a
    while loop with an explicit guard `size <= overlap` breaking out when
    the stride is not positive. -/

def chunkTextIter (size overlap : Nat) (text : List Char) :
    Nat → Nat → Option (List (List Char))
  | 0, start => if start < text.length then none else some []
  | fuel + 1, start =>
    if start < text.length then
      let e := min (start + size) text.length
      let piece := trimL ((text.drop start).take (e - start))
      let pushed := if piece = [] then [] else [piece]
      let start2 := start + (size - overlap)
      if text.length ≤ start2 ∨ size ≤ overlap then some pushed
      else
        match chunkTextIter size overlap text fuel start2 with
        | some rest => some (pushed ++ rest)
        | none => none
    else some []

def chunkText (size overlap : Nat) (text : List Char) : Option (List (List Char)) :=
  chunkTextIter size overlap text text.length 0

/-! Lemmas about the chunker loops. -/

theorem forceSplitIter_isSome (cs step : Nat) (t : List Char) :
    ∀ fuel i, t.length ≤ i + fuel * step →
      (SemanticChunker.forceSplitIter cs step t fuel i).isSome := by
  intro fuel
  induction fuel with
  | zero =>
    intro i h
    simp only [SemanticChunker.forceSplitIter]
    have : ¬ i < t.length := by omega
    simp [this]
  | succ n ih =>
    intro i h
    simp only [SemanticChunker.forceSplitIter]
    by_cases hi : i < t.length
    · have hrec : (SemanticChunker.forceSplitIter cs step t n (i + step)).isSome := by
        apply ih
        have : (n + 1) * step = n * step + step := by ring
        omega
      obtain ⟨l, hl⟩ := Option.isSome_iff_exists.mp hrec
      simp [hi, hl]
    · simp [hi]

theorem forceSplitIter_length_le (cs step : Nat) (t : List Char) :
    ∀ fuel i l, SemanticChunker.forceSplitIter cs step t fuel i = some l →
      l.length ≤ fuel := by
  intro fuel
  induction fuel with
  | zero =>
    intro i l h
    simp only [SemanticChunker.forceSplitIter] at h
    by_cases hi : i < t.length
    · simp [hi] at h
    · simp only [if_neg hi, Option.some.injEq] at h
      subst h
      simp
  | succ n ih =>
    intro i l h
    simp only [SemanticChunker.forceSplitIter] at h
    by_cases hi : i < t.length
    · simp only [if_pos hi] at h
      cases hrec : SemanticChunker.forceSplitIter cs step t n (i + step) with
      | none => rw [hrec] at h; simp at h
      | some rest =>
        rw [hrec] at h
        simp only [Option.some.injEq] at h
        have hr := ih (i + step) rest hrec
        subst h
        simp only [List.length_cons]
        omega
    · simp only [if_neg hi, Option.some.injEq] at h
      subst h
      simp

theorem chunkTextIter_isSome (size overlap : Nat) (t : List Char) :
    ∀ fuel start, t.length ≤ start + fuel →
      (chunkTextIter size overlap t fuel start).isSome := by
  intro fuel
  induction fuel with
  | zero =>
    intro start h
    simp only [chunkTextIter]
    have : ¬ start < t.length := by omega
    simp [this]
  | succ n ih =>
    intro start h
    simp only [chunkTextIter]
    by_cases hs : start < t.length
    · simp only [if_pos hs]
      by_cases hb : t.length ≤ start + (size - overlap) ∨ size ≤ overlap
      · simp [hb]
      · have hrec : (chunkTextIter size overlap t n (start + (size - overlap))).isSome := by
          apply ih
          omega
        obtain ⟨l, hl⟩ := Option.isSome_iff_exists.mp hrec
        simp [hb, hl]
    · simp [hs]

/-- The stride-zero force split loop never finishes on a non-empty text:
    the model returns none for every amount of fuel. -/
def forceSplitDiverges (cs step : Nat) (text : List Char) : Prop :=
  ∀ fuel : Nat, SemanticChunker.forceSplitIter cs step text fuel 0 = none

/-- C4: the spec example claims chunk("a.\n\nb.", maxSize=100, overlap=10)
    returns ["a.", "b."].  It does not: the text has length 6 ≤ 100, so the
    splitter returns the whole trimmed text as one chunk and no paragraph
    split happens. -/
theorem c4_chunk_example_counterexample :
    SemanticChunker.chunk 100 10 ("a.\n\nb.") ≠ [("a."), ("b.")] := by decide

/-- C4 amended: chunk("a.\n\nb.", maxSize=100, overlap=10) returns the
    single chunk ["a.\n\nb."], because the text already fits within
    maxSize; the paragraph-boundary split only applies to longer texts. -/
theorem c4_chunk_example_amended :
    SemanticChunker.chunk 100 10 ("a.\n\nb.") = [("a.\n\nb.")] := by decide

/-- C5: the spec claims chunk(T) = [trim(T)] whenever len(T) ≤ maxSize,
    but for whitespace-only T the code returns the empty list, not [""];
    here T = "" with maxSize = 100, overlap = 10. -/
theorem c5_small_text_counterexample :
    SemanticChunker.chunk 100 10 ("") ≠ [("")] := by decide

/-- C5 amended: for every text T with len(T) ≤ maxSize whose trimmed form
    is non-empty, chunk(T, maxSize, overlap) = [trim(T)] (for whitespace-
    only T the result is the empty list instead). -/
theorem c5_small_text (cs ov : Nat) (text : String)
    (hlen : text.length ≤ cs) (htrim : trimL text.data ≠ []) :
    SemanticChunker.chunk cs ov text = [String.mk (trimL text.data)] := by
  have hlen2 : text.data.length ≤ cs := hlen
  simp [SemanticChunker.chunk, SemanticChunker.chunkL, SemanticChunker.SEPARATORS,
    SemanticChunker.splitRecursive, SemanticChunker.addOverlap, hlen, hlen2, htrim]

theorem c5_small_text_witness :
    ("hi").length ≤ 100 ∧
      SemanticChunker.chunk 100 10 ("hi") = [String.mk (trimL (("hi").data))] :=
  ⟨by decide, c5_small_text 100 10 ("hi") (by decide) (by decide)⟩

/-- C9: the spec claims the fixed-stride fallback guarantees forward
    progress for every configured maxSize and overlap.  With
    maxSize = overlap = 1 the stride maxSize − overlap is 0, the loop
    index never advances, and the source loop does not terminate on the
    two-character text "ab": the fuelled model returns none for every
    fuel. -/
theorem c9_stride_zero_counterexample :
    forceSplitDiverges 1 (1 - 1) (("ab").data) := by
  intro fuel
  induction fuel with
  | zero => decide
  | succ n ih =>
    simp only [SemanticChunker.forceSplitIter]
    have h2 : 0 < (("ab").data).length := by decide
    simp only [if_pos h2]
    rw [show 0 + (1 - 1) = 0 from rfl, ih]

/-- C9 amended: whenever overlap < maxSize the fixed-stride fallback
    terminates within len(text) iterations and produces at most
    len(text) chunks, and the ingest-service chunkText loop terminates
    for every size and overlap thanks to its explicit
    size ≤ overlap guard. -/
theorem c9_bounded_progress (cs ov : Nat) (text : List Char) (h : ov < cs) :
    (∃ l, SemanticChunker.forceSplitIter cs (cs - ov) text text.length 0 = some l ∧
        l.length ≤ text.length) ∧
      ∀ size overlap : Nat, (chunkText size overlap text).isSome := by
  constructor
  · have hstep : 0 < cs - ov := by omega
    have hsome := forceSplitIter_isSome cs (cs - ov) text text.length 0
      (by
        have := Nat.le_mul_of_pos_right text.length hstep
        omega)
    obtain ⟨l, hl⟩ := Option.isSome_iff_exists.mp hsome
    exact ⟨l, hl, forceSplitIter_length_le cs (cs - ov) text text.length 0 l hl⟩
  · intro size overlap
    exact chunkTextIter_isSome size overlap text text.length 0 (by omega)

theorem c9_bounded_progress_witness :
    (∃ l, SemanticChunker.forceSplitIter 3 (3 - 1) (("abcdefg").data)
        (("abcdefg").data).length 0 = some l ∧
        l.length ≤ (("abcdefg").data).length) ∧
      ∀ size overlap : Nat, (chunkText size overlap (("abcdefg").data)).isSome :=
  c9_bounded_progress 3 1 (("abcdefg").data) (by decide)

/-! Part 4: the reranker AI.rerank from src/services/ai.ts.  The key-term
    extraction is the inline one of that function (lower-case, punctuation
    to spaces, whitespace split, drop stop words and tokens of length at
    most two). -/

/-- The punctuation class stripped by AI.rerank, by character code:
    apostrophe, double quote, parentheses, colon, asterisk, caret, tilde,
    angle brackets, curly braces, square brackets, backslash, slash,
    period, comma, exclamation mark, question mark, semicolon. -/
def isPunctAI (c : Char) : Bool :=
  [39, 34, 40, 41, 58, 42, 94, 126, 60, 62, 123, 125,
    91, 93, 92, 47, 46, 44, 33, 63, 59].contains c.toNat

/-- The stop-word set of AI.rerank in src/services/ai.ts. -/
def stopWordsAI : List (List Char) :=
  (["what", "who", "where", "when", "why", "how", "which", "whom",
    "the", "a", "an", "is", "are", "was", "were", "be", "been", "being",
    "have", "has", "had", "do", "does", "did", "will", "would", "could",
    "should", "may", "might", "must", "shall", "can", "this", "that",
    "describe", "tell", "explain", "give", "show", "about", "between",
    "and", "or", "but", "for", "with", "from", "into"] : List String).map
    String.data

/-- Split at whitespace characters.  The source splits on the regex \s+;
    the empty tokens produced here at consecutive whitespace are removed
    by the length filter of every caller, making the two equal after
    filtering. -/
def splitWSGo : List Char → List Char → List (List Char)
  | acc, [] => [acc]
  | acc, c :: t =>
    if isJsWS c then acc :: splitWSGo [] t else splitWSGo (acc ++ [c]) t

def splitWSL (l : List Char) : List (List Char) := splitWSGo [] l

/-- The inline key-term extraction of AI.rerank. -/
def keyTermsAI (query : List Char) : List (List Char) :=
  (splitWSL ((toLowerL query).map (fun c => if isPunctAI c then ' ' else c))).filter
    (fun w => 2 < w.length && !(stopWordsAI.contains w))

/-- The \w regex class: ASCII letters, digits and underscore. -/
def isWordChar (c : Char) : Bool := c.isAlphanum || c == '_'

def wordAt (l : List Char) (i : Nat) : Bool :=
  match l[i]? with
  | some c => isWordChar c
  | none => false

/-- Whether the regex \b term \b matches content at position i (the term
    is matched literally; the terms of the claims contain no regex
    metacharacters). -/
def matchBoundaryAt (content term : List Char) (i : Nat) : Bool :=
  !term.isEmpty && startsWithL (content.drop i) term &&
  ((if i = 0 then false else wordAt content (i - 1)) != wordAt content i) &&
  (wordAt content (i + term.length - 1) != wordAt content (i + term.length))

/-- Count of the non-overlapping left-to-right matches found by
    String.prototype.match with a global word-boundary regex.  Each step
    advances the position by at least one, so fuel content.length is
    always sufficient. -/
def countMatchesGo (content term : List Char) : Nat → Nat → Nat
  | 0, _ => 0
  | fuel + 1, i =>
    if i < content.length then
      if matchBoundaryAt content term i then
        1 + countMatchesGo content term fuel (i + max term.length 1)
      else countMatchesGo content term fuel (i + 1)
    else 0

def countWordMatches (content term : List Char) : Nat :=
  countMatchesGo content term content.length 0

/-- The transient candidate record passed to the reranker:
    { content, score }. -/
structure RankedResult where
  content : String
  score : JsNum
deriving DecidableEq

/-- The rerank sort comparator (a, b) => b.score − a.score, as the
    relation: a may precede b when b.score ≤ a.score. -/
def scoreDescRel (a b : RankedResult × Nat) : Prop :=
  JsNum.leb b.1.score a.1.score = true

instance : DecidableRel scoreDescRel := fun _ _ => instDecidableEqBool _ _

namespace AI

/-- AI.rerank from src/services/ai.ts: score each candidate by key-term
    occurrences, fold in the match ratio and the exact-phrase bonus, keep
    only candidates with at least one matching key term, sort by score
    descending and keep the top 15. -/
def rerank (results : List RankedResult) (query : String) : List RankedResult :=
  let keyTerms := keyTermsAI query.data
  if keyTerms = [] then results
  else
    let scored := results.map (fun r =>
      let contentLower := toLowerL r.content.data
      let contentNormalized := stripDiacriticsL contentLower
      let acc := keyTerms.foldl
        (fun (p : JsNum × Nat) term =>
          let termNormalized := stripDiacriticsL term
          let occ := countWordMatches contentNormalized termNormalized
          if 0 < occ then (p.1 + JsNum.ofInt occ, p.2 + 1) else p)
        (r.score, 0)
      let matchRatio := jq acc.2 keyTerms.length
      let score1 := matchRatio * JsNum.ofInt 10 + acc.1 * jq 1 10
      let score2 :=
        if containsSub contentLower (toLowerL query.data) then
          score1 + JsNum.ofInt 1
        else score1
      (RankedResult.mk r.content score2, acc.2))
    let filtered := scored.filter (fun rc => 1 ≤ rc.2)
    ((List.insertionSort scoreDescRel filtered).take 15).map (fun rc => rc.1)

end AI

/-- C1: the spec requires that candidates with matchRatio = 0 are not
    hard-filtered, surviving on their original signal score alone.
    AI.rerank violates this: the query "gamma" has the non-empty key-term
    list ["gamma"], and the single candidate "alpha beta" (score 0.9)
    contains no key term, so the filter matchCount ≥ 1 removes it and the
    output is empty instead of retaining the candidate. -/
theorem c1_rerank_hard_filters_zero_match :
    keyTermsAI (("gamma").data) ≠ [] ∧
      AI.rerank [RankedResult.mk ("alpha beta") (jq 9 10)] ("gamma") = [] := by
  constructor
  · decide
  · decide

/-- C10: when the extracted key terms of the query are empty, AI.rerank
    returns its input list unchanged: same elements, same order, same
    scores, with no filtering and no truncation. -/
theorem c10_rerank_identity_on_empty_terms
    (results : List RankedResult) (query : String)
    (h : keyTermsAI query.data = []) :
    AI.rerank results query = results := by
  simp [AI.rerank, h]

theorem c10_rerank_identity_witness :
    keyTermsAI (("what is that").data) = [] ∧
      AI.rerank [RankedResult.mk ("abc") (jq 9 10)] ("what is that") =
        [RankedResult.mk ("abc") (jq 9 10)] :=
  ⟨by decide,
    c10_rerank_identity_on_empty_terms
      [RankedResult.mk ("abc") (jq 9 10)] ("what is that") (by decide)⟩

/-! Part 5: hybrid search fusion from src/services/search/index.ts.  The
    two store queries are external; the pure fusion, sorting and
    reranking pipeline downstream of them is embedded as a function of
    the two raw ranked lists. -/

structure SearchResult where
  content : String
  filename : String
  distance : JsNum
deriving DecidableEq

structure FTSResult where
  content : String
  filename : String
  rank : JsNum
deriving DecidableEq

/-- The value stored in the scores map of hybridSearch:
    { score, doc, inBoth }. -/
structure FuseVal where
  score : JsNum
  doc : SearchResult
  inBoth : Bool
deriving DecidableEq

/-- The RRF constant k = 60 of hybridSearch. -/
def RRF_K : Nat := 60

/-- The RRF contribution 1 / (k + rank + 1) of a 0-indexed rank. -/
def rrfContribution (k rank : Nat) : JsNum := jq 1 (k + rank + 1)

/-- JavaScript Map.set keyed by doc.content: replace the value at the
    first entry with that key, keeping its insertion position, else
    append. -/
def setEntry : List FuseVal → FuseVal → List FuseVal
  | [], v => [v]
  | e :: es, v =>
    if e.doc.content = v.doc.content then v :: es else e :: setEntry es v

/-- The FTS phase of hybridSearch for one document: an FTS-only match is
    appended with distance 0.5; a document already present from the
    vector phase gets score * 2 + rrf and the inBoth flag. -/
def updateFts (rrf : JsNum) (doc : FTSResult) : List FuseVal → List FuseVal
  | [] => [⟨rrf, SearchResult.mk doc.content doc.filename (jq 1 2), false⟩]
  | e :: es =>
    if e.doc.content = doc.content then
      ⟨e.score * JsNum.ofInt 2 + rrf, e.doc, true⟩ :: es
    else e :: updateFts rrf doc es

/-- The hybridSearch sort comparator: documents found in both signal
    lists first, then by combined score descending; as the relation
    "a may precede b". -/
def fuseLe (a b : FuseVal) : Bool :=
  (a.inBoth && !b.inBoth) || ((a.inBoth == b.inBoth) && JsNum.leb b.score a.score)

def fuseRel (a b : FuseVal) : Prop := fuseLe a b = true

instance : DecidableRel fuseRel := fun _ _ => instDecidableEqBool _ _

instance : IsTotal FuseVal fuseRel := ⟨by
  intro a b
  simp only [fuseRel, fuseLe, Bool.or_eq_true, Bool.and_eq_true,
    Bool.not_eq_true', beq_iff_eq]
  cases ha : a.inBoth <;> cases hb : b.inBoth <;> simp
  · rcases Bool.or_eq_true .. |>.mp (JsNum.leb_total b.score a.score) with h | h
    · exact Or.inl h
    · exact Or.inr h
  · rcases Bool.or_eq_true .. |>.mp (JsNum.leb_total b.score a.score) with h | h
    · exact Or.inl h
    · exact Or.inr h⟩

instance : IsTrans FuseVal fuseRel := ⟨by
  intro a b c h1 h2
  simp only [fuseRel, fuseLe, Bool.or_eq_true, Bool.and_eq_true,
    Bool.not_eq_true', beq_iff_eq] at h1 h2 ⊢
  rcases h1 with ⟨ha, hb⟩ | ⟨hab, h1s⟩ <;>
    rcases h2 with ⟨hb2, hc⟩ | ⟨hbc, h2s⟩
  · exact Or.inl ⟨ha, hc⟩
  · exact Or.inl ⟨ha, hbc ▸ hb⟩
  · exact Or.inl ⟨hab.trans hb2, hc⟩
  · exact Or.inr ⟨hab.trans hbc, JsNum.leb_trans h2s h1s⟩⟩

/-- The fusion stage of hybridSearch: RRF scores with a distance bonus
    from the vector list, RRF scores and the in-both boost from the FTS
    list, sorted with in-both documents first, truncated to 15. -/
def fuseStage (vectorRaw : List SearchResult) (ftsRaw : List FTSResult) :
    List FuseVal :=
  let afterVec := vectorRaw.enum.foldl
    (fun acc p =>
      if p.2.content = "" then acc
      else
        setEntry acc
          ⟨rrfContribution RRF_K p.1 + (jq 1 1 - p.2.distance) * jq 1 10,
            p.2, false⟩)
    []
  let afterFts := ftsRaw.enum.foldl
    (fun acc p =>
      if p.2.content = "" then acc
      else updateFts (rrfContribution RRF_K p.1) p.2 acc)
    afterVec
  (List.insertionSort fuseRel afterFts).take 15

/-- hybridSearch downstream of the two store queries: fuse, rerank with
    AI.rerank, keep the top 8, and map each reranked row back to its
    original document. -/
def hybridSearch (vectorRaw : List SearchResult) (ftsRaw : List FTSResult)
    (query : String) : List SearchResult :=
  let sortedResults := fuseStage vectorRaw ftsRaw
  let reranked := AI.rerank
    (sortedResults.map (fun it => RankedResult.mk it.doc.content it.score)) query
  (reranked.take 8).map (fun r =>
    match sortedResults.find? (fun s => s.doc.content == r.content) with
    | some orig => orig.doc
    | none => SearchResult.mk r.content ("unknown") (jq 1 2))

/-- ftsSearch from src/services/search/index.ts downstream of the store
    query: map the BM25 rank into the pseudo-distance
    1 − min(1, |rank| / 10). -/
def ftsSearch (ftsRaw : List FTSResult) : List SearchResult :=
  ftsRaw.map (fun r =>
    SearchResult.mk r.content r.filename
      (jq 1 1 - JsNum.minJ (jq 1 1) (r.rank.absJ * jq 1 10)))

theorem fuseRel_inBoth {a b : FuseVal} (h : fuseRel a b) :
    b.inBoth = true → a.inBoth = true := by
  intro hb
  cases ha : a.inBoth
  · exfalso
    rw [fuseRel, fuseLe, ha, hb] at h
    simp at h
  · rfl

/-- C2: lexical-only search returns the document "runs daily" for the
    query "running" (matched by the store via stemming or prefix), but
    hybridSearch on the very same raw signal results returns the empty
    list: the fused document reaches AI.rerank, which removes it because
    the content contains no exact word-boundary occurrence of the key
    term "running".  This contradicts the spec sentence that hybrid
    search is non-empty whenever a single signal alone is non-empty. -/
theorem c2_hybrid_drops_lexical_results :
    ftsSearch [FTSResult.mk ("runs daily") ("f.pdf") (JsNum.ofInt (-5))] ≠ [] ∧
      hybridSearch []
        [FTSResult.mk ("runs daily") ("f.pdf") (JsNum.ofInt (-5))]
        ("running") = [] := by
  constructor
  · decide
  · decide

/-- C8: in the fusion stage of hybrid search, every document present in
    both signal lists is ranked above every document present in only one
    list (the comparator orders on the inBoth flag first); in particular
    fusing vector ranks A:0, B:1 with lexical ranks B:0, C:1 at K = 60
    yields the order B, A, C, with B above both A and C. -/
theorem c8_cross_signal_docs_rank_first :
    (∀ (vectorRaw : List SearchResult) (ftsRaw : List FTSResult),
        (fuseStage vectorRaw ftsRaw).Pairwise
          (fun a b => b.inBoth = true → a.inBoth = true)) ∧
      (fuseStage
          [SearchResult.mk ("A") ("a.pdf") (jq 1 2),
            SearchResult.mk ("B") ("b.pdf") (jq 1 2)]
          [FTSResult.mk ("B") ("b.pdf") (JsNum.ofInt (-5)),
            FTSResult.mk ("C") ("c.pdf") (JsNum.ofInt (-4))]).map
          (fun e => e.doc.content) = [("B"), ("A"), ("C")] := by
  constructor
  · intro vectorRaw ftsRaw
    have h1 := List.sorted_insertionSort fuseRel
      ((ftsRaw.enum.foldl
        (fun acc p =>
          if p.2.content = "" then acc
          else updateFts (rrfContribution RRF_K p.1) p.2 acc)
        (vectorRaw.enum.foldl
          (fun acc p =>
            if p.2.content = "" then acc
            else
              setEntry acc
                ⟨rrfContribution RRF_K p.1 + (jq 1 1 - p.2.distance) * jq 1 10,
                  p.2, false⟩)
          [])))
    have h2 := List.Pairwise.sublist (List.take_sublist 15 _) h1
    exact h2.imp fuseRel_inBoth
  · decide

/-! Part 6: the embedding client from src/services/ai/embedding.ts
    (Ollama path).  A backend batch call outcome is modelled as
    Except String (Option (List (List JsNum))): error is a network
    failure after the bounded retries of ollamaFetch, ok none a response
    without an embeddings field, ok (some embs) a response carrying
    embeddings. -/

/-- Partition a list into consecutive groups of n (the batching of both
    embedBatch implementations).  The n = 0 case, in which the source
    dispatch loop would not advance, is never used: both call sites pass
    a positive size. -/
def chunksOf {α : Type} : Nat → List α → List (List α)
  | _, [] => []
  | 0, l => [l]
  | n + 1, x :: xs => (x :: xs).take (n + 1) :: chunksOf (n + 1) ((x :: xs).drop (n + 1))
termination_by _ l => l.length
decreasing_by simp [List.length_drop]; omega

/-- The per-item fallback loop of generateBatchEmbeddings: call the
    single-text endpoint for each text in order; the first failing item
    aborts with its own error. -/
def fallbackItems (itemFn : String → Except String (List JsNum)) :
    List String → Except String (List (List JsNum))
  | [] => .ok []
  | t :: ts =>
    match itemFn t with
    | .error e => .error e
    | .ok v =>
      match fallbackItems itemFn ts with
      | .error e => .error e
      | .ok vs => .ok (v :: vs)

/-- generateBatchEmbeddings from src/services/ai/embedding.ts: a batch
    response with embeddings of exactly the input count is used as is;
    a failed call, a missing embeddings field, or a count mismatch all
    degrade to per-item calls. -/
def generateBatchEmbeddings
    (batchOutcome : Except String (Option (List (List JsNum))))
    (itemFn : String → Except String (List JsNum))
    (texts : List String) : Except String (List (List JsNum)) :=
  if texts = [] then .ok []
  else
    match batchOutcome with
    | .ok (some embs) =>
      if embs.length = texts.length then .ok embs else fallbackItems itemFn texts
    | .ok none => fallbackItems itemFn texts
    | .error _ => fallbackItems itemFn texts

/-- Sequential composition of per-batch results (the per-wave Promise.all
    writes to disjoint index ranges in batch order, so the completed
    value is the in-order concatenation; any batch error fails the
    call). -/
def processBatches (g : List String → Except String (List (List JsNum))) :
    List (List String) → Except String (List (List JsNum))
  | [] => .ok []
  | b :: bs =>
    match g b with
    | .error e => .error e
    | .ok vs =>
      match processBatches g bs with
      | .error e => .error e
      | .ok rest => .ok (vs ++ rest)

/-- The wave loop of generateEmbeddingBatch: waves of at most
    concurrency batches, each wave completing before the next starts. -/
def processWaves (g : List String → Except String (List (List JsNum))) :
    List (List (List String)) → Except String (List (List JsNum))
  | [] => .ok []
  | w :: ws =>
    match processBatches g w with
    | .error e => .error e
    | .ok vs =>
      match processWaves g ws with
      | .error e => .error e
      | .ok rest => .ok (vs ++ rest)

def OLLAMA_BATCH_SIZE : Nat := 32

/-- generateEmbeddingBatch from src/services/ai/embedding.ts (Ollama
    path): split the texts into batches of OLLAMA_BATCH_SIZE, process
    them in waves of at most concurrency batches, and assemble the
    results at the original indices. -/
def generateEmbeddingBatch
    (batchCall : List String → Except String (Option (List (List JsNum))))
    (itemFn : String → Except String (List JsNum))
    (concurrency : Nat) (texts : List String) :
    Except String (List (List JsNum)) :=
  if texts = [] then .ok []
  else
    processWaves (fun b => generateBatchEmbeddings (batchCall b) itemFn b)
      (chunksOf concurrency (chunksOf OLLAMA_BATCH_SIZE texts))

namespace AI

/-- AI.embedBatch from src/services/ai.ts (Ollama path): dispatch the
    single-text endpoint for up to concurrency texts at once, wave after
    wave, writing each result at the index of its text.  Its ollamaFetch
    throws on failure, so the embedding covers the all-calls-succeed
    behaviour with itemF the backend embedding of one text. -/
def embedBatch (itemF : String → List JsNum) (concurrency : Nat)
    (texts : List String) : List (List JsNum) :=
  if texts = [] then []
  else ((chunksOf concurrency texts).map (fun w => w.map itemF)).flatten

end AI

theorem chunksOf_flatten_aux {α : Type} (m : Nat) :
    ∀ (k : Nat) (l : List α), l.length ≤ k → (chunksOf (m + 1) l).flatten = l := by
  intro k
  induction k with
  | zero =>
    intro l h
    have : l = [] := List.eq_nil_of_length_eq_zero (by omega)
    subst this
    simp [chunksOf]
  | succ k ih =>
    intro l h
    cases l with
    | nil => simp [chunksOf]
    | cons x xs =>
      simp only [chunksOf, List.flatten_cons]
      rw [ih]
      · exact List.take_append_drop _ _
      · simp only [List.length_drop]
        omega

theorem chunksOf_flatten {α : Type} (n : Nat) (hn : 0 < n) (l : List α) :
    (chunksOf n l).flatten = l := by
  obtain ⟨m, rfl⟩ : ∃ m, n = m + 1 := ⟨n - 1, by omega⟩
  exact chunksOf_flatten_aux m l.length l le_rfl

theorem processBatches_append (g : List String → Except String (List (List JsNum)))
    (as bs : List (List String)) :
    processBatches g (as ++ bs) =
      match processBatches g as with
      | .error e => .error e
      | .ok va =>
        match processBatches g bs with
        | .error e => .error e
        | .ok vb => .ok (va ++ vb) := by
  induction as with
  | nil => cases hb : processBatches g bs <;> simp [processBatches, hb]
  | cons a as ih =>
    simp only [List.cons_append, processBatches, List.append_eq, ih]
    cases g a with
    | error e => rfl
    | ok va =>
      cases processBatches g as with
      | error e => rfl
      | ok vas =>
        cases processBatches g bs with
        | error e => rfl
        | ok vbs => simp [List.append_assoc]

theorem processWaves_eq_batches
    (g : List String → Except String (List (List JsNum)))
    (ws : List (List (List String))) :
    processWaves g ws = processBatches g ws.flatten := by
  induction ws with
  | nil => simp [processWaves, processBatches]
  | cons w ws ih =>
    simp only [processWaves, List.flatten_cons, processBatches_append, ih]

theorem processBatches_healthy
    (g : List String → Except String (List (List JsNum)))
    (f : String → List JsNum) (bs : List (List String))
    (h : ∀ b ∈ bs, g b = .ok (b.map f)) :
    processBatches g bs = .ok (bs.flatten.map f) := by
  induction bs with
  | nil => simp [processBatches]
  | cons b bs ih =>
    simp only [processBatches, h b (by simp)]
    rw [ih (fun b hb => h b (by simp [hb]))]
    simp

theorem generateBatchEmbeddings_healthy
    (itemFn : String → Except String (List JsNum))
    (f : String → List JsNum) (b : List String) :
    generateBatchEmbeddings (.ok (some (b.map f))) itemFn b = .ok (b.map f) := by
  by_cases hb : b = [] <;> simp [generateBatchEmbeddings, hb]

/-- C6: with a healthy backend (every batch call succeeds and returns
    one vector per input text, the vector of that text), both
    generateEmbeddingBatch and AI.embedBatch return exactly
    len(texts) vectors, index-aligned with the inputs: the result is
    texts.map embedF, never permuted. -/
theorem c6_embedBatch_aligned (embedF : String → List JsNum)
    (batchCall : List String → Except String (Option (List (List JsNum))))
    (itemFn : String → Except String (List JsNum))
    (concurrency : Nat) (texts : List String)
    (hc : 0 < concurrency)
    (hb : ∀ ts, batchCall ts = .ok (some (ts.map embedF))) :
    generateEmbeddingBatch batchCall itemFn concurrency texts =
        .ok (texts.map embedF) ∧
      AI.embedBatch embedF concurrency texts = texts.map embedF ∧
      (texts.map embedF).length = texts.length := by
  refine ⟨?_, ?_, by simp⟩
  · by_cases ht : texts = []
    · simp [generateEmbeddingBatch, ht]
    · rw [generateEmbeddingBatch, if_neg ht, processWaves_eq_batches,
        chunksOf_flatten concurrency hc]
      rw [processBatches_healthy _ embedF _
        (fun b _ => by rw [hb b]; exact generateBatchEmbeddings_healthy itemFn embedF b)]
      rw [chunksOf_flatten OLLAMA_BATCH_SIZE (by decide)]
  · by_cases ht : texts = []
    · simp [AI.embedBatch, ht]
    · rw [AI.embedBatch, if_neg ht, ← List.map_flatten,
        chunksOf_flatten concurrency hc]

def mockEmbedF : String → List JsNum := fun t => [JsNum.ofInt t.length]

def mockBatchCall : List String → Except String (Option (List (List JsNum))) :=
  fun ts => .ok (some (ts.map mockEmbedF))

def mockItemFn : String → Except String (List JsNum) :=
  fun t => .ok (mockEmbedF t)

theorem c6_embedBatch_aligned_witness :
    generateEmbeddingBatch mockBatchCall mockItemFn 2 [("x"), ("y"), ("z")] =
        .ok ([("x"), ("y"), ("z")].map mockEmbedF) ∧
      AI.embedBatch mockEmbedF 2 [("x"), ("y"), ("z")] =
        [("x"), ("y"), ("z")].map mockEmbedF ∧
      ([("x"), ("y"), ("z")].map mockEmbedF).length =
        ([("x"), ("y"), ("z")] : List String).length := by
  have T := c6_embedBatch_aligned mockEmbedF mockBatchCall mockItemFn 2
    [("x"), ("y"), ("z")] (by decide) (fun ts => rfl)
  exact ⟨T.1, T.2.1, T.2.2⟩

theorem fallbackItems_all_ok (itemFn : String → Except String (List JsNum)) :
    ∀ (ts : List String), (∀ t ∈ ts, ∃ v, itemFn t = .ok v) →
      ∃ vs, fallbackItems itemFn ts = .ok vs ∧ vs.length = ts.length := by
  intro ts
  induction ts with
  | nil => intro _; exact ⟨[], rfl, rfl⟩
  | cons t ts ih =>
    intro h
    obtain ⟨v, hv⟩ := h t (by simp)
    obtain ⟨vs, hvs, hlen⟩ := ih (fun u hu => h u (by simp [hu]))
    exact ⟨v :: vs, by simp [fallbackItems, hv, hvs], by simp [hlen]⟩

theorem fallbackItems_first_error (itemFn : String → Except String (List JsNum)) :
    ∀ (pre : List String) (t : String) (post : List String) (err : String),
      (∀ p ∈ pre, ∃ v, itemFn p = .ok v) → itemFn t = .error err →
      fallbackItems itemFn (pre ++ t :: post) = .error err := by
  intro pre
  induction pre with
  | nil => intro t post err _ ht; simp [fallbackItems, ht]
  | cons p pre ih =>
    intro t post err h ht
    obtain ⟨v, hv⟩ := h p (by simp)
    simp only [List.cons_append, fallbackItems, hv, List.append_eq,
      ih t post err (fun u hu => h u (by simp [hu])) ht]

/-- C7 amended: a malformed batch response (embeddings count differing
    from the input count, or a missing embeddings field) is treated
    exactly like a failed batch call: all three degrade to the same
    per-item fallback; the call succeeds whenever every individual item
    succeeds, and otherwise surfaces the first failing item's own error
    unchanged — without identifying which input failed. -/
theorem c7_malformed_batch_degrades (texts : List String)
    (itemFn : String → Except String (List JsNum))
    (embs : List (List JsNum)) (e : String)
    (hne : texts ≠ []) (hlen : embs.length ≠ texts.length) :
    generateBatchEmbeddings (.ok (some embs)) itemFn texts =
        fallbackItems itemFn texts ∧
      generateBatchEmbeddings (.ok none) itemFn texts =
        fallbackItems itemFn texts ∧
      generateBatchEmbeddings (.error e) itemFn texts =
        fallbackItems itemFn texts ∧
      ((∀ t ∈ texts, ∃ v, itemFn t = .ok v) →
        ∃ vs, generateBatchEmbeddings (.error e) itemFn texts = .ok vs ∧
          vs.length = texts.length) ∧
      (∀ (pre : List String) (t : String) (post : List String) (err : String),
        texts = pre ++ t :: post → (∀ p ∈ pre, ∃ v, itemFn p = .ok v) →
        itemFn t = .error err →
        generateBatchEmbeddings (.error e) itemFn texts = .error err) := by
  have h3 : generateBatchEmbeddings (.error e) itemFn texts =
      fallbackItems itemFn texts := by
    simp [generateBatchEmbeddings, hne]
  refine ⟨by simp [generateBatchEmbeddings, hne, hlen], by
    simp [generateBatchEmbeddings, hne], h3, ?_, ?_⟩
  · intro h
    obtain ⟨vs, hvs, hl⟩ := fallbackItems_all_ok itemFn texts h
    exact ⟨vs, by rw [h3, hvs], hl⟩
  · intro pre t post err hsplit hpre ht
    rw [h3, hsplit]
    exact fallbackItems_first_error itemFn pre t post err hpre ht

theorem c7_malformed_batch_degrades_witness :
    generateBatchEmbeddings (.ok (some [])) mockItemFn [("a"), ("b")] =
        fallbackItems mockItemFn [("a"), ("b")] ∧
      generateBatchEmbeddings (.ok none) mockItemFn [("a"), ("b")] =
        fallbackItems mockItemFn [("a"), ("b")] ∧
      generateBatchEmbeddings (.error ("down")) mockItemFn [("a"), ("b")] =
        fallbackItems mockItemFn [("a"), ("b")] ∧
      ((∀ t ∈ [("a"), ("b")], ∃ v, mockItemFn t = .ok v) →
        ∃ vs, generateBatchEmbeddings (.error ("down")) mockItemFn
            [("a"), ("b")] = .ok vs ∧
          vs.length = ([("a"), ("b")] : List String).length) ∧
      (∀ (pre : List String) (t : String) (post : List String) (err : String),
        ([("a"), ("b")] : List String) = pre ++ t :: post →
        (∀ p ∈ pre, ∃ v, mockItemFn p = .ok v) →
        mockItemFn t = .error err →
        generateBatchEmbeddings (.error ("down")) mockItemFn
          [("a"), ("b")] = .error err) :=
  c7_malformed_batch_degrades [("a"), ("b")] mockItemFn [] ("down")
    (by decide) (by decide)

/-- The self-documented counterexample item functions: the first fails on
    input x, the second on input y, with the same error text. -/
def itemFnFailsOnX : String → Except String (List JsNum) :=
  fun t => if t = "x" then .error ("fail") else .ok [JsNum.ofInt 1]

def itemFnFailsOnY : String → Except String (List JsNum) :=
  fun t => if t = "y" then .error ("fail") else .ok [JsNum.ofInt 1]

/-- C7 counterexample for the claim that the surfaced error identifies
    which input failed: for the batch x, y two backends failing on
    different inputs (x for the first and y for the second, the second
    succeeding on x) produce the identical overall result, so the error
    carries no information about which input failed. -/
theorem c7_error_identifies_input_counterexample :
    generateBatchEmbeddings (.error ("down")) itemFnFailsOnX [("x"), ("y")] =
        .error ("fail") ∧
      generateBatchEmbeddings (.error ("down")) itemFnFailsOnY [("x"), ("y")] =
        .error ("fail") ∧
      itemFnFailsOnX ("x") = .error ("fail") ∧
      itemFnFailsOnY ("x") = .ok [JsNum.ofInt 1] ∧
      itemFnFailsOnY ("y") = .error ("fail") :=
  ⟨rfl, rfl, rfl, rfl, rfl⟩

/-! Part 7: the document-granularity ingestion transaction of
    src/services/ingest/index.ts.  The Dual Index Store is modelled from
    its schema (a chunk table, the chunks_fts lexical index, and the
    vec_index vector index keyed by a shared rowid); the transaction
    primitive is the all-or-nothing contract of the store (db.transaction
    of the embedded SQLite store, external to the repository). -/

structure StoreM where
  chunksTab : List (Nat × String × String)
  ftsTab : List (String × Nat)
  vecTab : List (Nat × List JsNum)
  nextId : Nat
deriving DecidableEq

/-- The body of one loop iteration: insertChunk assigning the next rowid,
    insertChunkFts with the same rowid, and insertVector with the same
    rowid. -/
def insertOne (fileName c : String) (e : List JsNum) (s : StoreM) : StoreM :=
  { chunksTab := s.chunksTab ++ [(s.nextId, c, fileName)],
    ftsTab := s.ftsTab ++ [(c, s.nextId)],
    vecTab := s.vecTab ++ [(s.nextId, e)],
    nextId := s.nextId + 1 }

/-- The transaction body of ingestPDF: iterate the chunk list with its
    index-aligned embeddings, skipping an empty chunk or a missing
    embedding, and insert the three rows for each remaining pair. -/
def ingestLoop (fileName : String) :
    List String → List (List JsNum) → StoreM → StoreM
  | [], _, s => s
  | c :: cs, embs, s =>
    match embs with
    | [] => ingestLoop fileName cs [] s
    | e :: es =>
      if c = "" then ingestLoop fileName cs es s
      else ingestLoop fileName cs es (insertOne fileName c e s)

/-- The db.transaction boundary around the whole loop: on failure the
    store is rolled back unchanged, otherwise the full loop result
    becomes visible at once. -/
def ingestTransaction (fail : Bool) (fileName : String) (chunks : List String)
    (embs : List (List JsNum)) (s : StoreM) : StoreM :=
  if fail then s else ingestLoop fileName chunks embs s

theorem ingestLoop_mono (fileName : String) :
    ∀ (cs : List String) (embs : List (List JsNum)) (s : StoreM),
      (∀ x, x ∈ s.chunksTab → x ∈ (ingestLoop fileName cs embs s).chunksTab) ∧
      (∀ x, x ∈ s.ftsTab → x ∈ (ingestLoop fileName cs embs s).ftsTab) ∧
      (∀ x, x ∈ s.vecTab → x ∈ (ingestLoop fileName cs embs s).vecTab) := by
  intro cs
  induction cs with
  | nil => intro embs s; simp [ingestLoop]
  | cons c cs ih =>
    intro embs s
    cases embs with
    | nil => simpa [ingestLoop] using ih [] s
    | cons e es =>
      by_cases hc : c = ""
      · simpa [ingestLoop, hc] using ih es s
      · have h2 := ih es (insertOne fileName c e s)
        simp only [ingestLoop, if_neg hc]
        refine ⟨fun x hx => h2.1 x ?_, fun x hx => h2.2.1 x ?_,
          fun x hx => h2.2.2 x ?_⟩
        all_goals simp [insertOne, hx]

theorem ingestLoop_visible (fileName : String) :
    ∀ (cs : List String) (embs : List (List JsNum)) (s : StoreM)
      (i : Nat) (c : String) (e : List JsNum),
      cs[i]? = some c → embs[i]? = some e → c ≠ "" →
      ∃ rid, (rid, c, fileName) ∈ (ingestLoop fileName cs embs s).chunksTab ∧
        (c, rid) ∈ (ingestLoop fileName cs embs s).ftsTab ∧
        (rid, e) ∈ (ingestLoop fileName cs embs s).vecTab := by
  intro cs
  induction cs with
  | nil => intro embs s i c e hc; simp at hc
  | cons c0 cs ih =>
    intro embs s i c e hc he hne
    cases embs with
    | nil => cases i <;> simp at he
    | cons e0 es =>
      cases i with
      | zero =>
        simp only [List.getElem?_cons_zero, Option.some.injEq] at hc he
        subst c
        subst e
        have hmono := ingestLoop_mono fileName cs es (insertOne fileName c0 e0 s)
        simp only [ingestLoop, if_neg hne]
        refine ⟨s.nextId, hmono.1 _ ?_, hmono.2.1 _ ?_, hmono.2.2 _ ?_⟩
        all_goals simp [insertOne]
      | succ i =>
        simp only [List.getElem?_cons_succ] at hc he
        by_cases hc0 : c0 = ""
        · simp only [ingestLoop, if_pos hc0]
          exact ih es s i c e hc he hne
        · simp only [ingestLoop, if_neg hc0]
          exact ih es (insertOne fileName c0 e0 s) i c e hc he hne

/-- C3: ingestion of a document's full chunk set is atomic at document
    granularity: a failed transaction leaves the store unchanged, and a
    committed transaction makes, for every index-aligned pair of a
    non-empty chunk and its embedding, the chunk row, its lexical index
    entry, and its vector index entry visible together under one shared
    rowid. -/
theorem c3_ingest_document_atomic (fail : Bool) (fileName : String)
    (chunks : List String) (embs : List (List JsNum)) (s : StoreM) :
    (fail = true → ingestTransaction fail fileName chunks embs s = s) ∧
      (fail = false → ∀ (i : Nat) (c : String) (e : List JsNum),
        chunks[i]? = some c → embs[i]? = some e → c ≠ "" →
        ∃ rid,
          (rid, c, fileName) ∈
            (ingestTransaction fail fileName chunks embs s).chunksTab ∧
          (c, rid) ∈ (ingestTransaction fail fileName chunks embs s).ftsTab ∧
          (rid, e) ∈ (ingestTransaction fail fileName chunks embs s).vecTab) := by
  constructor
  · intro h; simp [ingestTransaction, h]
  · intro h i c e hc he hne
    simp only [ingestTransaction, h, Bool.false_eq_true, if_false]
    exact ingestLoop_visible fileName chunks embs s i c e hc he hne

def emptyStore : StoreM := ⟨[], [], [], 1⟩

theorem c3_ingest_document_atomic_witness :
    ∃ rid,
      (rid, ("hello"), ("doc.pdf")) ∈
        (ingestTransaction false ("doc.pdf") [("hello")] [[JsNum.ofInt 7]]
          emptyStore).chunksTab ∧
      (("hello"), rid) ∈
        (ingestTransaction false ("doc.pdf") [("hello")] [[JsNum.ofInt 7]]
          emptyStore).ftsTab ∧
      (rid, [JsNum.ofInt 7]) ∈
        (ingestTransaction false ("doc.pdf") [("hello")] [[JsNum.ofInt 7]]
          emptyStore).vecTab :=
  (c3_ingest_document_atomic false ("doc.pdf") [("hello")] [[JsNum.ofInt 7]]
      emptyStore).2 rfl 0 ("hello") [JsNum.ofInt 7] rfl rfl (by decide)

end PocketRAG
